import Mathlib

/-!
Shallow embedding of the `max_rss` supervisor (src/main.rs) for verifying the
specification claims.

Modelling conventions:
* pids are `Nat`; the kernel supplies them, no arithmetic is done on them;
* the `HashMap<Pid, ProcInfo>` process table is an association list in
  insertion order (`insertProc` replaces in place or appends at the end;
  the map API used by the source never depends on iteration order for the
  claims below, sums and counts being order independent);
* machine integers are `Nat`/`Int`; `u64` arithmetic that can wrap carries an
  explicit `% 2 ^ 64`;
* fallible operations return `Except`; Rust panics (`expect`, `unreachable!`)
  are explicit error constructors;
* the kernel side of the event loop (which `WaitStatus` `waitpid` yields, the
  payload of `ptrace::getevent`, the outcome of `ptrace::cont` / `detach`, and
  the bytes read from `/proc/<pid>/smaps_rollup`) is an oracle: every event
  carries those inputs.
-/

deriving instance DecidableEq for Except

abbrev Pid := Nat

/-- Relevant subset of `nix::errno::Errno`; the source only distinguishes
`ESRCH` from everything else (main.rs lines 202-205). -/
inductive Errno where
  | ESRCH
  | ENOENT
  | other (n : Nat)
deriving DecidableEq, Repr

/-- The per-process record (struct `ProcInfo`, main.rs lines 48-58). -/
structure ProcInfo where
  exited : Bool := false
  children : List Pid := []
  rss : Nat := 0
deriving DecidableEq, Repr

/-- The process table `HashMap<Pid, ProcInfo>`, modelled as an association
list with unique keys, kept in insertion order. -/
abbrev ProcTable := List (Pid × ProcInfo)

/-- `HashMap::get` / `get_mut` as a lookup (first matching key). -/
def lookupProc : ProcTable → Pid → Option ProcInfo
  | [], _ => none
  | (q, i) :: t, p => if q = p then some i else lookupProc t p

/-- `HashMap::insert`: replace the record in place if the key is present,
otherwise add a new entry. -/
def insertProc : ProcTable → Pid → ProcInfo → ProcTable
  | [], p, i => [(p, i)]
  | (q, j) :: t, p, i => if q = p then (p, i) :: t else (q, j) :: insertProc t p i

/-- `procs.entry(pid).and_modify(|i| i.exited = true)` (main.rs lines 155,
163, 186, 203): set `exited` on an existing record, no-op otherwise. -/
def markExited : ProcTable → Pid → ProcTable
  | [], _ => []
  | (q, i) :: t, p =>
      if q = p then (q, { i with exited := true }) :: t else (q, i) :: markExited t p

/-- `i.rss = get_rss(pid)?` writing the probe result into an existing record
(main.rs line 175). -/
def recordRss : ProcTable → Pid → Nat → ProcTable
  | [], _, _ => []
  | (q, i) :: t, p, r =>
      if q = p then (q, { i with rss := r }) :: t else (q, i) :: recordRss t p r

/-- `procs.entry(pid).and_modify(|i| i.children.push(new_pid))`
(main.rs line 221). -/
def appendChild : ProcTable → Pid → Pid → ProcTable
  | [], _, _ => []
  | (q, i) :: t, p, c =>
      if q = p then (q, { i with children := i.children ++ [c] }) :: t
      else (q, i) :: appendChild t p c

/-- Keys of the table, in insertion order. -/
def keysOf (t : ProcTable) : List Pid := t.map Prod.fst

/-- Concatenation of every record's `children` list. -/
def childIds (t : ProcTable) : List Pid := (t.map (fun pr => pr.2.children)).flatten

/-! ### The RSS probe (`get_rss`, main.rs lines 28-46)

Strings are modelled as `List Char` so the text manipulation is structurally
recursive (`String.toList` converts at the boundary). -/

abbrev Chars := List Char

/-- Split at every newline character; always returns at least one piece. -/
def splitNl (s : Chars) (acc : Chars) : List Chars :=
  match s with
  | [] => [acc.reverse]
  | c :: rest => if c = '\n' then acc.reverse :: splitNl rest [] else splitNl rest (c :: acc)

/-- Drop one trailing carriage return, as a line ending of the form CR LF
leaves the CR at the end of the piece split off before the LF. -/
def stripCr (l : Chars) : Chars :=
  match l.reverse with
  | '\x0d' :: rest => rest.reverse
  | _ => l

/-- `str::lines`: split at LF, drop the empty piece a final line ending
produces, strip the CR of a CR LF ending from every terminated line. -/
def rustLines (s : Chars) : List Chars :=
  match (splitNl s []).reverse with
  | [] => []
  | last :: revInit =>
      if last = [] then (revInit.reverse).map stripCr
      else (revInit.reverse).map stripCr ++ [last]

def isAsciiWhitespaceChar (c : Char) : Bool :=
  c = ' ' || c = '\t' || c = '\n' || c = '\x0d' || c = '\x0c'

/-- Split at ASCII whitespace, keeping the (possibly empty) pieces. -/
def splitWs (s : Chars) (acc : Chars) : List Chars :=
  match s with
  | [] => [acc.reverse]
  | c :: rest =>
      if isAsciiWhitespaceChar c then acc.reverse :: splitWs rest []
      else splitWs rest (c :: acc)

/-- `str::split_ascii_whitespace`: split at ASCII whitespace, keeping only
the non-empty pieces. -/
def splitAsciiWhitespace (s : Chars) : List Chars :=
  (splitWs s []).filter (fun piece => piece ≠ [])

/-- `line.starts_with("Rss:")`. -/
def startsWithRss (l : Chars) : Bool := ['R', 's', 's', ':'].isPrefixOf l

def isDigitChar (c : Char) : Bool := 48 ≤ c.toNat && c.toNat ≤ 57

/-- Value of a decimal digit string. -/
def digitsToNat (s : Chars) : Nat := s.foldl (fun a c => a * 10 + (c.toNat - 48)) 0

/-- `str::parse::<u64>`: an optional leading plus sign, then decimal digits,
rejecting the empty digit string and values outside the `u64` range. -/
def parseU64 (s : Chars) : Option Nat :=
  let digits := match s with
    | '+' :: rest => rest
    | _ => s
  if digits ≠ [] ∧ digits.all isDigitChar then
    if digitsToNat digits < 2 ^ 64 then some (digitsToNat digits) else none
  else none

/-- Outcomes of `get_rss`: a propagated read error (`fs::read_to_string(path)?`)
or one of the three `expect` panics. -/
inductive GetRssErr where
  | ioError
  | panicNoRssLine
  | panicNoValue
  | panicParse
deriving DecidableEq, Repr

/-- `get_rss` (main.rs lines 28-46) over the contents of
`/proc/<pid>/smaps_rollup`; `none` models a failed read. The `u64`
multiplication `kb * 1024` wraps. -/
def get_rss (smaps : Option Chars) : Except GetRssErr Nat :=
  match smaps with
  | none => .error .ioError
  | some text =>
    match (rustLines text).find? startsWithRss with
    | none => .error .panicNoRssLine
    | some line =>
      match (splitAsciiWhitespace line)[1]? with
      | none => .error .panicNoValue
      | some tok =>
        match parseU64 tok with
        | none => .error .panicParse
        | some kb => .ok (kb * 1024 % 2 ^ 64)

/-! ### The event pump (main.rs lines 126-253) -/

/-- The configuration record handed to the tracer; only `return_result`
influences the trace engine (cli.rs `Args`). -/
structure Args where
  return_result : Bool
deriving DecidableEq, Repr

/-- One observed `waitpid` status together with the oracle inputs its handler
consumes: the `smaps_rollup` contents read by `get_rss`, and the errno (if
any) returned by the follow-up `ptrace` request (`cont` / `detach`). -/
inductive Event where
  | exited (pid : Pid) (code : Int)
  | signaled (pid : Pid) (signal : Nat)
  | ptraceExit (pid : Pid) (smaps : Option Chars) (contRes : Option Errno)
  | newChild (pid : Pid) (newPid : Pid) (contRes : Option Errno)
  | stopped (pid : Pid) (signal : Nat) (contRes : Option Errno)
  | stillAlive
  | other (pid : Pid) (contRes : Option Errno)
deriving DecidableEq, Repr

/-- Ways the tracer aborts: a propagated `get_rss` error, the
`unreachable!("untracked pid")` panic, or a fatal `ptrace` errno
(`bail!` / `?`). -/
inductive StepError where
  | probe (e : GetRssErr)
  | untrackedPid
  | ptrace (e : Errno)
deriving DecidableEq, Repr

/-- Mutable state of the tracer loop: the process table and `exit_code`
(main.rs lines 126-130). -/
structure TraceState where
  procs : ProcTable
  exitCode : Int
deriving DecidableEq, Repr

/-- State before the loop: the root tracee inserted with a default record,
`exit_code = 0` (main.rs lines 126-130). -/
def initState (child : Pid) : TraceState := ⟨[(child, {})], 0⟩

/-- Dispatch of one `WaitStatus` (the `match status` at main.rs lines
152-248), returning the updated state or the error that aborts the run. -/
def handleStatus (args : Args) (child : Pid) (st : TraceState) (ev : Event) :
    Except StepError TraceState :=
  match ev with
  | .exited pid code =>
      .ok ⟨markExited st.procs pid,
           if args.return_result && pid == child then code else st.exitCode⟩
  | .signaled pid sig =>
      .ok ⟨markExited st.procs pid,
           if args.return_result && pid == child then 128 + (sig : Int) else st.exitCode⟩
  | .ptraceExit pid smaps contRes =>
      match lookupProc st.procs pid with
      | none => .error .untrackedPid
      | some _ =>
        match get_rss smaps with
        | .error e => .error (.probe e)
        | .ok rss =>
          let procs := recordRss st.procs pid rss
          let procs :=
            if pid == child && args.return_result then procs
            else markExited procs pid
          match contRes with
          | none => .ok ⟨procs, st.exitCode⟩
          | some .ESRCH => .ok ⟨markExited procs pid, st.exitCode⟩
          | some e => .error (.ptrace e)
  | .newChild pid newPid contRes =>
      let procs := insertProc st.procs newPid {}
      let procs := appendChild procs pid newPid
      match contRes with
      | none => .ok ⟨procs, st.exitCode⟩
      | some e => .error (.ptrace e)
  | .stopped _ _ contRes =>
      match contRes with
      | none => .ok st
      | some e => .error (.ptrace e)
  | .stillAlive => .ok st
  | .other _ contRes =>
      match contRes with
      | none => .ok st
      | some e => .error (.ptrace e)

/-- Whether `p` is a live tracked pid of the table: exactly the pids the loop
polls (`pids_to_check`, main.rs lines 139-142). -/
def alivePid (t : ProcTable) (p : Pid) : Bool :=
  match lookupProc t p with
  | some i => !i.exited
  | none => false

/-- Kernel-side validity of one observed event: `waitpid` is only called on
live tracked pids, and a fork-class event reports a pid that is new to the
supervisor. -/
def eventOk (st : TraceState) (ev : Event) : Bool :=
  match ev with
  | .exited p _ => alivePid st.procs p
  | .signaled p _ => alivePid st.procs p
  | .ptraceExit p _ _ => alivePid st.procs p
  | .newChild p newP _ => alivePid st.procs p && (lookupProc st.procs newP).isNone
  | .stopped p _ _ => alivePid st.procs p
  | .stillAlive => true
  | .other p _ => alivePid st.procs p

/-- Validity of a whole observed event sequence, threading the state. -/
def eventsOk (args : Args) (child : Pid) : TraceState → List Event → Bool
  | _, [] => true
  | st, e :: es =>
      eventOk st e &&
      match handleStatus args child st e with
      | .ok st' => eventsOk args child st' es
      | .error _ => true

/-- Process a sequence of observed events, stopping at the first abort. -/
def applyEvents (args : Args) (child : Pid) : List Event → TraceState →
    Except StepError TraceState
  | [], st => .ok st
  | e :: es, st =>
      match handleStatus args child st e with
      | .ok st' => applyEvents args child es st'
      | .error err => .error err

/-- `procs.iter().all(|(_, t)| t.exited)` — the loop guard (main.rs line 134). -/
def allExited (t : ProcTable) : Bool := t.all (fun pr => pr.2.exited)

/-- Snapshot of live pids polled in one drain pass (main.rs lines 139-142). -/
def pidsToCheck (t : ProcTable) : List Pid :=
  (t.filter (fun pr => !pr.2.exited)).map Prod.fst

/-- The inner `for current in pids_to_check` loop: handle each pid's status,
with the early `break` after a pre-exit event (main.rs line 208). -/
def drainGo (args : Args) (child : Pid) (oracle : Pid → Event) :
    List Pid → TraceState → Except StepError TraceState
  | [], st => .ok st
  | p :: ps, st =>
      match handleStatus args child st (oracle p) with
      | .error err => .error err
      | .ok st' =>
        match oracle p with
        | .ptraceExit _ _ _ => .ok st'
        | _ => drainGo args child oracle ps st'

/-- One full drain pass over the snapshot of live pids. -/
def drainPass (args : Args) (child : Pid) (oracle : Pid → Event)
    (st : TraceState) : Except StepError TraceState :=
  drainGo args child oracle (pidsToCheck st.procs) st

/-- The outer event loop (main.rs lines 132-253): terminate when every record
has exited, otherwise run a drain pass and iterate. Fuel bounds the number of
iterations; `ok none` means the fuel ran out with the loop still running. -/
def eventLoop (drain : TraceState → Except StepError TraceState) :
    Nat → TraceState → Except StepError (Option TraceState)
  | 0, _ => .ok none
  | n + 1, st =>
      if allExited st.procs then .ok (some st)
      else
        match drain st with
        | .error err => .error err
        | .ok st' => eventLoop drain n st'

/-! ### Aggregation and output (main.rs lines 255-283) -/

/-- The fold computing `(max_rss, total_reads)` (main.rs lines 255-268);
the `u64` additions wrap. -/
def aggregate (child : Pid) (procs : ProcTable) : Nat × Nat :=
  procs.foldl
    (fun acc pr =>
      if pr.1 == child || !pr.2.children.isEmpty then
        ((acc.1 + pr.2.rss) % 2 ^ 64, (acc.2 + 1) % 2 ^ 64)
      else acc)
    (0, 0)

/-- Records selected by the specification's rule: the root tracee, or a record
with at least one child. -/
def specSelected (child : Pid) (procs : ProcTable) : ProcTable :=
  procs.filter (fun pr => pr.1 == child || decide (0 < pr.2.children.length))

/-- Specification wording: the sum of `rss_bytes` over the selected records. -/
def specMaxRss (child : Pid) (procs : ProcTable) : Nat :=
  ((specSelected child procs).map (fun pr => pr.2.rss)).sum

/-- Specification wording: the number of selected records. -/
def specTotalReads (child : Pid) (procs : ProcTable) : Nat :=
  (specSelected child procs).length

/-- Minimal JSON value model for the emitted artifact. -/
inductive Json where
  | num (n : Nat)
  | int (i : Int)
  | null
  | arr (xs : List Json)
  | obj (fields : List (String × Json))

/-- Key list of a JSON object. -/
def jsonKeys : Json → List String
  | .obj fields => fields.map Prod.fst
  | _ => []

/-- Render a list of pids and, recursively, their subtrees. Fuel (structural,
decremented on every recursive call) makes the source's unbounded recursion
well founded; `none` models the `expect("untracked pid")` panic as well as
exhausted fuel. -/
def renderForest (table : ProcTable) : Nat → List Pid → Option (List Json)
  | 0, _ => none
  | _ + 1, [] => some []
  | fuel + 1, p :: ps =>
    match lookupProc table p with
    | none => none
    | some info =>
      match renderForest table fuel info.children with
      | none => none
      | some rendered =>
        match renderForest table fuel ps with
        | none => none
        | some rest =>
          some (Json.obj
                  [("id", .num p),
                   ("rss", .num info.rss),
                   ("children", if rendered.isEmpty then .null else .arr rendered)]
                :: rest)

/-- The recursive `tree` rendering (main.rs lines 60-73), seeded with enough
fuel for any table whose child graph is a tree (the C8 invariant): the
recursion nesting depth is at most the node count plus the length of one
children list, so `2 * length + 2` suffices. -/
def tree (pid : Pid) (table : ProcTable) : Option Json :=
  match renderForest table (2 * table.length + 2) [pid] with
  | some [j] => some j
  | _ => none

/-- The JSON object written to the output file (main.rs lines 270-283); every
field, `exit_code` included, is emitted unconditionally by the `json!` call.
`none` models the panic inside `tree`. -/
def outputJson (child : Pid) (st : TraceState) : Option Json :=
  match tree child st.procs with
  | none => none
  | some graph =>
    some (.obj [("max_rss", .num (aggregate child st.procs).1),
                ("total_pids", .num st.procs.length),
                ("total_reads", .num (aggregate child st.procs).2),
                ("exit_code", .int st.exitCode),
                ("graph", graph)])

/-! ### The tracee launcher (main.rs lines 80-98) -/

/-- Result of running a Rust expression that can panic. -/
inductive RunOutcome (α : Type) where
  | ok (a : α)
  | panicked (msg : String)
deriving DecidableEq, Repr

/-- `Result::expect_err`: panics with the message when the value is `Ok`,
otherwise returns the contained error. -/
def expectErr {ε α : Type} (r : Except ε α) (msg : String) : RunOutcome ε :=
  match r with
  | .error e => .ok e
  | .ok _ => .panicked msg

/-- The tail of the forked child after `traceme` and `raise(SIGSTOP)` have
succeeded (main.rs lines 95-97): `execvp(..).expect_err("failed to execvp")`
followed by `Ok(())`. `execvp` never returns on success, so its value type is
`Empty`; the argument is the outcome of the `execvp` call given that it
returned. The panic message is discarded along with the errno, and the child
finishes with `Ok(())`, i.e. exit status 0. -/
def traceeExecTail (execvpResult : Except Errno Empty) :
    RunOutcome (Except Errno Unit) :=
  match expectErr execvpResult "failed to execvp" with
  | .panicked msg => .panicked msg
  | .ok _ => .ok (.ok ())


/-! ## Helper lemmas -/

theorem isEmpty_bool_eq_length (l : List Pid) :
    (!l.isEmpty) = decide (0 < l.length) := by
  cases l <;> simp

/-- The selection predicate of the source fold agrees with the
specification's wording of the selection rule. -/
theorem selected_pred_eq (child : Pid) (pr : Pid × ProcInfo) :
    (pr.1 == child || !pr.2.children.isEmpty)
      = (pr.1 == child || decide (0 < pr.2.children.length)) := by
  rw [isEmpty_bool_eq_length]

theorem aggregate_foldl (child : Pid) :
    ∀ (procs : ProcTable) (a b : Nat),
      a + specMaxRss child procs < 2 ^ 64 →
      b + specTotalReads child procs < 2 ^ 64 →
      procs.foldl
        (fun acc pr =>
          if pr.1 == child || !pr.2.children.isEmpty then
            ((acc.1 + pr.2.rss) % 2 ^ 64, (acc.2 + 1) % 2 ^ 64)
          else acc)
        (a, b)
      = (a + specMaxRss child procs, b + specTotalReads child procs) := by
  intro procs
  induction procs with
  | nil => intro a b _ _; simp [specMaxRss, specTotalReads, specSelected]
  | cons pr t ih =>
    intro a b hsum hcnt
    by_cases hsel : (pr.1 == child || !pr.2.children.isEmpty) = true
    · have hsel' : (pr.1 == child || decide (0 < pr.2.children.length)) = true := by
        rw [← selected_pred_eq]; exact hsel
      have hsumc : specMaxRss child (pr :: t) = pr.2.rss + specMaxRss child t := by
        simp [specMaxRss, specSelected, hsel']
      have hcntc : specTotalReads child (pr :: t) = specTotalReads child t + 1 := by
        simp [specTotalReads, specSelected, hsel']
      rw [hsumc] at hsum
      rw [hcntc] at hcnt
      have ha : a + pr.2.rss < 2 ^ 64 := by omega
      have hb : b + 1 < 2 ^ 64 := by omega
      simp only [List.foldl_cons, hsel, if_pos, Nat.mod_eq_of_lt ha, Nat.mod_eq_of_lt hb]
      rw [ih (a + pr.2.rss) (b + 1) (by omega) (by omega), hsumc, hcntc,
        Prod.mk.injEq]
      omega
    · have hself : (pr.1 == child || !pr.2.children.isEmpty) = false := by
        simpa using hsel
      have hsel' : (pr.1 == child || decide (0 < pr.2.children.length)) = false := by
        rw [← selected_pred_eq]; exact hself
      have hsumc : specMaxRss child (pr :: t) = specMaxRss child t := by
        simp [specMaxRss, specSelected, hsel']
      have hcntc : specTotalReads child (pr :: t) = specTotalReads child t := by
        simp [specTotalReads, specSelected, hsel']
      rw [hsumc] at hsum
      rw [hcntc] at hcnt
      simp only [List.foldl_cons, hself, Bool.false_eq_true, if_false]
      rw [ih a b hsum hcnt, hsumc, hcntc]

/-! ## C1 -/

/-- C1: the reported `max_rss` is the sum of `rss_bytes` over exactly the
records that are the root tracee or have at least one child, and
`total_reads` is the number of records so selected; every other record
contributes nothing. Stated for any final process table whose selected sum
and count fit in `u64` (the fold accumulators wrap at `2 ^ 64`). -/
theorem c1_aggregation (child : Pid) (procs : ProcTable)
    (hsum : specMaxRss child procs < 2 ^ 64)
    (hcnt : specTotalReads child procs < 2 ^ 64) :
    aggregate child procs = (specMaxRss child procs, specTotalReads child procs) := by
  have h := aggregate_foldl child procs 0 0 (by omega) (by omega)
  simpa [aggregate] using h

/-- Witness for C1: the fork-chain scenario A(root) → B → C, where only the
root and the one record with a child are counted. -/
theorem c1_aggregation_witness :
    specMaxRss 3 [(3, ⟨true, [4], 100⟩), (4, ⟨true, [5], 30⟩), (5, ⟨true, [], 7⟩)] < 2 ^ 64 ∧
    specTotalReads 3 [(3, ⟨true, [4], 100⟩), (4, ⟨true, [5], 30⟩), (5, ⟨true, [], 7⟩)] < 2 ^ 64 ∧
    aggregate 3 [(3, ⟨true, [4], 100⟩), (4, ⟨true, [5], 30⟩), (5, ⟨true, [], 7⟩)]
      = (specMaxRss 3 [(3, ⟨true, [4], 100⟩), (4, ⟨true, [5], 30⟩), (5, ⟨true, [], 7⟩)],
         specTotalReads 3 [(3, ⟨true, [4], 100⟩), (4, ⟨true, [5], 30⟩), (5, ⟨true, [], 7⟩)]) :=
  ⟨by decide, by decide,
   c1_aggregation 3 [(3, ⟨true, [4], 100⟩), (4, ⟨true, [5], 30⟩), (5, ⟨true, [], 7⟩)]
     (by decide) (by decide)⟩

/-! ## C4 -/

/-- C4: the claim (and the spec) say a returning `execvp` is reported as a
failure. The code disagrees: `expect_err` only panics when its argument is
`Ok`, which `execvp` (value type `Infallible`) never produces, so a failed
image replacement hands back the errno, discards it, and the child falls
through to `Ok(())` — a silent successful exit with status 0. This theorem
evaluates the launcher tail at the failing input `Err(ENOENT)` and shows the
same happens for every errno. -/
theorem c4_execvp_silent_success :
    traceeExecTail (.error .ENOENT) = .ok (.ok ()) ∧
    ∀ e : Errno, traceeExecTail (.error e) = .ok (.ok ()) :=
  ⟨rfl, fun _ => rfl⟩

/-! ## C2 -/

/-- C2 counterexample: a pre-exit event for the root whose `smaps_rollup`
read fails (the process vanished). The claim promises recovery: record
marked exited, run completes. Instead the `?` on `get_rss(pid)?`
(main.rs line 175) propagates the read error and the event handler — hence
the run — aborts, with the record left unmodified rather than marked
exited. -/
theorem c2_counterexample :
    handleStatus ⟨false⟩ 7 (initState 7) (.ptraceExit 7 none none)
      = .error (.probe .ioError) := by decide

/-- C2 (amended): a failure to read `smaps_rollup` at the pre-exit event is
fatal, not recovered: for every tracked pid whose probe errors, the handler
propagates the probe error (only an ESRCH from the subsequent
continue/detach request is recovered by marking the record exited). -/
theorem c2_probe_error_fatal (args : Args) (child : Pid) (st : TraceState)
    (pid : Pid) (smaps : Option Chars) (contRes : Option Errno)
    (i : ProcInfo) (e : GetRssErr)
    (hlook : lookupProc st.procs pid = some i)
    (hprobe : get_rss smaps = .error e) :
    handleStatus args child st (.ptraceExit pid smaps contRes)
      = .error (.probe e) := by
  simp [handleStatus, hlook, hprobe]

/-- Witness for C2 (amended) at a concrete vanished-process probe. -/
theorem c2_probe_error_fatal_witness :
    lookupProc (initState 7).procs 7 = some {} ∧
    get_rss none = .error .ioError ∧
    handleStatus ⟨true⟩ 7 (initState 7) (.ptraceExit 7 none (some .ESRCH))
      = .error (.probe .ioError) :=
  ⟨by decide, by decide,
   c2_probe_error_fatal ⟨true⟩ 7 (initState 7) 7 none (some .ESRCH) {} .ioError
     (by decide) (by decide)⟩

/-! ## C3 -/

/-- C3 counterexample: a run with propagation off (`return_result = false`)
whose root exits normally still emits an `exit_code` field — the `json!`
object (main.rs lines 275-281) includes it unconditionally, contradicting
the claim that the field is present iff propagation is enabled. -/
theorem c3_counterexample :
    applyEvents ⟨false⟩ 7 [.exited 7 0] (initState 7)
      = .ok ⟨[(7, ⟨true, [], 0⟩)], 0⟩ ∧
    (outputJson 7 ⟨[(7, ⟨true, [], 0⟩)], 0⟩).map jsonKeys
      = some ["max_rss", "total_pids", "total_reads", "exit_code", "graph"] :=
  ⟨by decide, by decide⟩

/-- C3 (amended): the emitted JSON object always contains an `exit_code`
field, whether or not exit-code propagation is enabled. -/
theorem c3_exit_code_always_emitted (child : Pid) (st : TraceState) (j : Json)
    (h : outputJson child st = some j) : "exit_code" ∈ jsonKeys j := by
  unfold outputJson at h
  cases htree : tree child st.procs with
  | none => rw [htree] at h; cases h
  | some graph =>
    rw [htree] at h
    cases h
    simp [jsonKeys]

/-- Witness for C3 (amended) on a one-process table. -/
theorem c3_exit_code_always_emitted_witness :
    "exit_code" ∈ jsonKeys
      (.obj [("max_rss", .num 0),
             ("total_pids", .num 1),
             ("total_reads", .num 1),
             ("exit_code", .int 0),
             ("graph", .obj [("id", .num 7), ("rss", .num 0), ("children", .null)])]) :=
  c3_exit_code_always_emitted 7 ⟨[(7, ⟨true, [], 0⟩)], 0⟩ _ rfl

/-! ## C10 -/

theorem markExited_of_lookup_none (t : ProcTable) (p : Pid)
    (h : lookupProc t p = none) : markExited t p = t := by
  induction t with
  | nil => rfl
  | cons pr rest ih =>
    obtain ⟨q, i⟩ := pr
    by_cases hq : q = p
    · rw [lookupProc, if_pos hq] at h; cases h
    · rw [lookupProc, if_neg hq] at h
      rw [markExited, if_neg hq, ih h]

/-- C10: an exited-cleanly or exited-by-signal status for a pid with no
record in the table leaves the process table unchanged — the mark-exited
update (`entry(..).and_modify(..)`) modifies an existing entry and never
inserts one. -/
theorem c10_unknown_pid_no_insert (args : Args) (child : Pid)
    (st : TraceState) (pid : Pid) (code : Int) (sig : Nat)
    (h : lookupProc st.procs pid = none) :
    (handleStatus args child st (.exited pid code)).map TraceState.procs
      = .ok st.procs ∧
    (handleStatus args child st (.signaled pid sig)).map TraceState.procs
      = .ok st.procs := by
  constructor <;> simp [handleStatus, markExited_of_lookup_none _ _ h, Except.map]

/-- Witness for C10: an exit status for untracked pid 9. -/
theorem c10_unknown_pid_no_insert_witness :
    lookupProc (initState 7).procs 9 = none ∧
    (handleStatus ⟨true⟩ 7 (initState 7) (.exited 9 1)).map TraceState.procs
      = .ok (initState 7).procs ∧
    (handleStatus ⟨true⟩ 7 (initState 7) (.signaled 9 9)).map TraceState.procs
      = .ok (initState 7).procs :=
  ⟨by decide,
   (c10_unknown_pid_no_insert ⟨true⟩ 7 (initState 7) 9 1 9 (by decide)).1,
   (c10_unknown_pid_no_insert ⟨true⟩ 7 (initState 7) 9 1 9 (by decide)).2⟩

/-! ## C9 -/

/-- C9: with `--return-result`, when the continue command at the root's
pre-exit event fails with ESRCH, the root is marked exited without its
terminal wait status ever being observed (the event sequence contains no
`Exited`/`Signaled` status for it), so `exit_code` keeps its initial 0 and
the supervisor exits 0 regardless of how the tracee actually terminated.
The final table is all-exited, so the loop then terminates. -/
theorem c9_esrch_swallows_exit_status :
    eventsOk ⟨true⟩ 7 (initState 7)
      [.ptraceExit 7 (some "Rss: 4 kB".toList) (some .ESRCH)] = true ∧
    applyEvents ⟨true⟩ 7
      [.ptraceExit 7 (some "Rss: 4 kB".toList) (some .ESRCH)] (initState 7)
      = .ok ⟨[(7, ⟨true, [], 4096⟩)], 0⟩ ∧
    allExited [(7, ⟨true, [], 4096⟩)] = true ∧
    (⟨[(7, ⟨true, [], 4096⟩)], 0⟩ : TraceState).exitCode = 0 :=
  ⟨by decide, by decide, by decide, rfl⟩

/-! ## C6 -/

/-- C6: the outer event loop terminates (reaches its `break`) iff every
record in the table has exited. Part one: whatever the drain pass does and
however much fuel is granted, a normal loop exit only happens at a state
whose records are all exited — the guard at the top of the iteration is the
only way out. Part two: as soon as every record is exited, the very next
iteration exits the loop, returning the state unchanged. -/
theorem c6_loop_terminates_iff_all_exited :
    (∀ (drain : TraceState → Except StepError TraceState) (n : Nat)
        (st st' : TraceState),
        eventLoop drain n st = .ok (some st') → allExited st'.procs = true) ∧
    (∀ (drain : TraceState → Except StepError TraceState) (n : Nat)
        (st : TraceState),
        allExited st.procs = true → eventLoop drain (n + 1) st = .ok (some st)) := by
  constructor
  · intro drain n
    induction n with
    | zero =>
      intro st st' h
      simp [eventLoop] at h
    | succ n ih =>
      intro st st' h
      simp only [eventLoop] at h
      by_cases hall : allExited st.procs = true
      · rw [if_pos hall] at h
        simp only [Except.ok.injEq, Option.some.injEq] at h
        rw [← h]
        exact hall
      · rw [if_neg hall] at h
        cases hd : drain st with
        | error e => rw [hd] at h; cases h
        | ok st'' => rw [hd] at h; exact ih st'' st' h
  · intro drain n st h
    simp only [eventLoop]
    rw [if_pos h]

/-- Witness for C6 on a drained one-process table. -/
theorem c6_loop_terminates_iff_all_exited_witness :
    allExited ([(7, ⟨true, [], 0⟩)] : ProcTable) = true ∧
    eventLoop (fun s => .ok s) 1 ⟨[(7, ⟨true, [], 0⟩)], 0⟩
      = .ok (some ⟨[(7, ⟨true, [], 0⟩)], 0⟩) ∧
    allExited (⟨[(7, ⟨true, [], 0⟩)], 0⟩ : TraceState).procs = true :=
  ⟨by decide,
   c6_loop_terminates_iff_all_exited.2 (fun s => .ok s) 0
     ⟨[(7, ⟨true, [], 0⟩)], 0⟩ (by decide),
   c6_loop_terminates_iff_all_exited.1 (fun s => .ok s) 1
     ⟨[(7, ⟨true, [], 0⟩)], 0⟩ ⟨[(7, ⟨true, [], 0⟩)], 0⟩ (by decide)⟩

/-! ## C7 -/

/-- C7: the RSS probe contract. When the rollup file is readable and its
first line starting `Rss:` has a parseable second whitespace-separated token
`kb` (with `kb * 1024` in `u64` range), the probe returns `1024 * kb` bytes.
A failed read propagates as the I/O error; a readable file with no `Rss:`
line, with no second token on that line, or with an unparseable token is an
internal (panic) error. -/
theorem c7_get_rss_contract
    (content line tok : Chars) (kb : Nat)
    (noLineContent : Chars)
    (noValContent line2 : Chars)
    (badTokContent line3 tok3 : Chars)
    (hline : (rustLines content).find? startsWithRss = some line)
    (htok : (splitAsciiWhitespace line)[1]? = some tok)
    (hkb : parseU64 tok = some kb)
    (hbound : kb * 1024 < 2 ^ 64)
    (hnoline : (rustLines noLineContent).find? startsWithRss = none)
    (hline2 : (rustLines noValContent).find? startsWithRss = some line2)
    (htok2 : (splitAsciiWhitespace line2)[1]? = none)
    (hline3 : (rustLines badTokContent).find? startsWithRss = some line3)
    (htok3 : (splitAsciiWhitespace line3)[1]? = some tok3)
    (htok3bad : parseU64 tok3 = none) :
    get_rss (some content) = .ok (1024 * kb) ∧
    get_rss none = .error .ioError ∧
    get_rss (some noLineContent) = .error .panicNoRssLine ∧
    get_rss (some noValContent) = .error .panicNoValue ∧
    get_rss (some badTokContent) = .error .panicParse := by
  refine ⟨?_, rfl, ?_, ?_, ?_⟩
  · simp [get_rss, hline, htok, hkb]
    omega
  · simp [get_rss, hnoline]
  · simp [get_rss, hline2, htok2]
  · simp [get_rss, hline3, htok3, htok3bad]

/-- Witness for C7 on concrete rollup contents. -/
theorem c7_get_rss_contract_witness :
    (rustLines "Pss: 1 kB\nRss: 4 kB\n".toList).find? startsWithRss
        = some "Rss: 4 kB".toList ∧
    parseU64 ['4'] = some 4 ∧
    get_rss (some "Pss: 1 kB\nRss: 4 kB\n".toList) = .ok (1024 * 4) ∧
    get_rss none = .error .ioError ∧
    get_rss (some "Pss: 1 kB".toList) = .error .panicNoRssLine ∧
    get_rss (some "Rss:".toList) = .error .panicNoValue ∧
    get_rss (some "Rss: x kB".toList) = .error .panicParse := by
  refine ⟨by decide, by decide, ?_⟩
  exact c7_get_rss_contract
    "Pss: 1 kB\nRss: 4 kB\n".toList "Rss: 4 kB".toList ['4'] 4
    "Pss: 1 kB".toList
    "Rss:".toList "Rss:".toList
    "Rss: x kB".toList "Rss: x kB".toList ['x']
    (by decide) (by decide) (by decide) (by decide) (by decide)
    (by decide) (by decide) (by decide) (by decide) (by decide)

/-! ## Table lookup lemmas -/

theorem lookup_markExited (t : ProcTable) (p q : Pid) :
    lookupProc (markExited t p) q
      = if q = p then (lookupProc t p).map (fun i => { i with exited := true })
        else lookupProc t q := by
  induction t with
  | nil => simp [markExited, lookupProc]
  | cons pr rest ih =>
    obtain ⟨r, i⟩ := pr
    by_cases hr : r = p
    · subst hr
      by_cases hq : r = q
      · subst hq; simp [markExited, lookupProc]
      · have hqr : ¬q = r := fun h => hq h.symm
        simp [markExited, lookupProc, hq, hqr]
    · by_cases hq : r = q
      · subst hq
        have hrp : ¬r = p := hr
        simp [markExited, lookupProc, hrp]
      · simp [markExited, lookupProc, hr, hq, ih]

theorem lookup_recordRss (t : ProcTable) (p q : Pid) (v : Nat) :
    lookupProc (recordRss t p v) q
      = if q = p then (lookupProc t p).map (fun i => { i with rss := v })
        else lookupProc t q := by
  induction t with
  | nil => simp [recordRss, lookupProc]
  | cons pr rest ih =>
    obtain ⟨r, i⟩ := pr
    by_cases hr : r = p
    · subst hr
      by_cases hq : r = q
      · subst hq; simp [recordRss, lookupProc]
      · have hqr : ¬q = r := fun h => hq h.symm
        simp [recordRss, lookupProc, hq, hqr]
    · by_cases hq : r = q
      · subst hq
        have hrp : ¬r = p := hr
        simp [recordRss, lookupProc, hrp]
      · simp [recordRss, lookupProc, hr, hq, ih]

theorem lookup_appendChild (t : ProcTable) (p q c : Pid) :
    lookupProc (appendChild t p c) q
      = if q = p then
          (lookupProc t p).map (fun i => { i with children := i.children ++ [c] })
        else lookupProc t q := by
  induction t with
  | nil => simp [appendChild, lookupProc]
  | cons pr rest ih =>
    obtain ⟨r, i⟩ := pr
    by_cases hr : r = p
    · subst hr
      by_cases hq : r = q
      · subst hq; simp [appendChild, lookupProc]
      · have hqr : ¬q = r := fun h => hq h.symm
        simp [appendChild, lookupProc, hq, hqr]
    · by_cases hq : r = q
      · subst hq
        have hrp : ¬r = p := hr
        simp [appendChild, lookupProc, hrp]
      · simp [appendChild, lookupProc, hr, hq, ih]

theorem lookup_insertProc (t : ProcTable) (p q : Pid) (i : ProcInfo) :
    lookupProc (insertProc t p i) q
      = if q = p then some i else lookupProc t q := by
  induction t with
  | nil =>
    by_cases hq : q = p
    · subst hq; simp [insertProc, lookupProc]
    · have hpq : ¬p = q := fun h => hq h.symm
      simp [insertProc, lookupProc, hq, hpq]
  | cons pr rest ih =>
    obtain ⟨r, j⟩ := pr
    by_cases hr : r = p
    · subst hr
      by_cases hq : r = q
      · subst hq; simp [insertProc, lookupProc]
      · have hqr : ¬q = r := fun h => hq h.symm
        simp [insertProc, lookupProc, hq, hqr]
    · by_cases hq : r = q
      · subst hq
        have hrp : ¬r = p := hr
        simp [insertProc, lookupProc, hrp]
      · simp [insertProc, lookupProc, hr, hq, ih]

/-- Whether the table records `p` as exited. -/
def pidExited (t : ProcTable) (p : Pid) : Bool :=
  match lookupProc t p with
  | some i => i.exited
  | none => false

theorem alive_not_exited (t : ProcTable) (c : Pid)
    (ha : alivePid t c = true) (he : pidExited t c = true) : False := by
  unfold alivePid at ha
  unfold pidExited at he
  cases hl : lookupProc t c with
  | none => rw [hl] at he; cases he
  | some i =>
    rw [hl] at ha he
    simp only [Bool.not_eq_true'] at ha
    simp only [ha] at he
    cases he

theorem pidExited_markExited (t : ProcTable) (p c : Pid)
    (h : pidExited t c = true) : pidExited (markExited t p) c = true := by
  unfold pidExited at h ⊢
  rw [lookup_markExited]
  by_cases hc : c = p
  · subst hc
    cases hl : lookupProc t c with
    | none => rw [hl] at h; cases h
    | some i => simp
  · rw [if_neg hc]; exact h

theorem pidExited_markExited_self (t : ProcTable) (p : Pid) (i : ProcInfo)
    (h : lookupProc t p = some i) : pidExited (markExited t p) p = true := by
  unfold pidExited
  rw [lookup_markExited, if_pos rfl, h]
  rfl

theorem pidExited_recordRss (t : ProcTable) (p c : Pid) (v : Nat) :
    pidExited (recordRss t p v) c = pidExited t c := by
  unfold pidExited
  rw [lookup_recordRss]
  by_cases hc : c = p
  · subst hc
    cases hl : lookupProc t c <;> simp
  · rw [if_neg hc]

theorem pidExited_appendChild (t : ProcTable) (p x c : Pid) :
    pidExited (appendChild t p x) c = pidExited t c := by
  unfold pidExited
  rw [lookup_appendChild]
  by_cases hc : c = p
  · subst hc
    cases hl : lookupProc t c <;> simp
  · rw [if_neg hc]

theorem pidExited_insertProc_fresh (t : ProcTable) (p c : Pid) (i : ProcInfo)
    (hfresh : lookupProc t p = none) (h : pidExited t c = true) :
    pidExited (insertProc t p i) c = true := by
  have hc : c ≠ p := by
    intro hcp
    subst hcp
    unfold pidExited at h
    rw [hfresh] at h
    cases h
  unfold pidExited at h ⊢
  rw [lookup_insertProc, if_neg hc]
  exact h

/-- How one handled status can change `exit_code`: it is untouched unless the
status is a terminal one for the root under `--return-result`. -/
theorem handleStatus_exitCode_cases (args : Args) (child : Pid)
    (st st' : TraceState) (e : Event)
    (h : handleStatus args child st e = .ok st') :
    st'.exitCode = st.exitCode
    ∨ (∃ code, e = .exited child code ∧ args.return_result = true
         ∧ st'.exitCode = code)
    ∨ (∃ sig, e = .signaled child sig ∧ args.return_result = true
         ∧ st'.exitCode = 128 + (sig : Int)) := by
  cases e with
  | exited pid code =>
    simp only [handleStatus] at h
    by_cases hc : (args.return_result && pid == child) = true
    · rw [if_pos hc] at h
      cases h
      have hc' := hc
      simp only [Bool.and_eq_true, beq_iff_eq] at hc'
      exact Or.inr (Or.inl ⟨code, by rw [hc'.2], hc'.1, rfl⟩)
    · rw [if_neg hc] at h
      cases h
      exact Or.inl rfl
  | signaled pid sig =>
    simp only [handleStatus] at h
    by_cases hc : (args.return_result && pid == child) = true
    · rw [if_pos hc] at h
      cases h
      have hc' := hc
      simp only [Bool.and_eq_true, beq_iff_eq] at hc'
      exact Or.inr (Or.inr ⟨sig, by rw [hc'.2], hc'.1, rfl⟩)
    · rw [if_neg hc] at h
      cases h
      exact Or.inl rfl
  | ptraceExit pid smaps contRes =>
    simp only [handleStatus] at h
    cases hl : lookupProc st.procs pid with
    | none => rw [hl] at h; cases h
    | some i =>
      rw [hl] at h
      cases hrss : get_rss smaps with
      | error er => rw [hrss] at h; cases h
      | ok rss =>
        rw [hrss] at h
        cases contRes with
        | none => cases h; exact Or.inl rfl
        | some er =>
          cases er with
          | ESRCH => cases h; exact Or.inl rfl
          | ENOENT => cases h
          | other n => cases h
  | newChild pid newPid contRes =>
    simp only [handleStatus] at h
    cases contRes with
    | none => cases h; exact Or.inl rfl
    | some er => cases h
  | stopped pid sig contRes =>
    simp only [handleStatus] at h
    cases contRes with
    | none => cases h; exact Or.inl rfl
    | some er => cases h
  | stillAlive =>
    simp only [handleStatus] at h
    cases h
    exact Or.inl rfl
  | other pid contRes =>
    simp only [handleStatus] at h
    cases contRes with
    | none => cases h; exact Or.inl rfl
    | some er => cases h

/-- Once the root is recorded as exited, no handled status un-exits it
(`exited` never reverts; records are only replaced wholesale at a fresh
pid). -/
theorem pidExited_mono (args : Args) (child : Pid) (st st' : TraceState)
    (e : Event) (hok : handleStatus args child st e = .ok st')
    (hev : eventOk st e = true) (hex : pidExited st.procs child = true) :
    pidExited st'.procs child = true := by
  cases e with
  | exited pid code =>
    simp only [handleStatus] at hok
    cases hok
    exact pidExited_markExited _ _ _ hex
  | signaled pid sig =>
    simp only [handleStatus] at hok
    cases hok
    exact pidExited_markExited _ _ _ hex
  | ptraceExit pid smaps contRes =>
    simp only [handleStatus] at hok
    cases hl : lookupProc st.procs pid with
    | none => rw [hl] at hok; cases hok
    | some i =>
      rw [hl] at hok
      cases hrss : get_rss smaps with
      | error er => rw [hrss] at hok; cases hok
      | ok rss =>
        rw [hrss] at hok
        have hbranch : ∀ b : Bool,
            pidExited (if b = true then recordRss st.procs pid rss
              else markExited (recordRss st.procs pid rss) pid) child = true := by
          intro b
          cases b with
          | true =>
            rw [if_pos rfl, pidExited_recordRss]
            exact hex
          | false =>
            simp only [Bool.false_eq_true, if_false]
            apply pidExited_markExited
            rw [pidExited_recordRss]
            exact hex
        cases contRes with
        | none =>
          cases hok
          exact hbranch _
        | some er =>
          cases er with
          | ESRCH =>
            cases hok
            exact pidExited_markExited _ _ _ (hbranch _)
          | ENOENT => cases hok
          | other n => cases hok
  | newChild pid newPid contRes =>
    simp only [eventOk, Bool.and_eq_true, Option.isNone_iff_eq_none] at hev
    cases contRes with
    | none =>
      simp only [handleStatus] at hok
      cases hok
      rw [pidExited_appendChild]
      exact pidExited_insertProc_fresh _ _ _ _ hev.2 hex
    | some er => simp only [handleStatus] at hok; cases hok
  | stopped pid sig contRes =>
    simp only [handleStatus] at hok
    cases contRes with
    | none => cases hok; exact hex
    | some er => cases hok
  | stillAlive =>
    simp only [handleStatus] at hok
    cases hok
    exact hex
  | other pid contRes =>
    simp only [handleStatus] at hok
    cases contRes with
    | none => cases hok; exact hex
    | some er => cases hok

/-- With propagation off, no event sequence changes `exit_code`. -/
theorem applyEvents_exitCode_rr_false (args : Args) (child : Pid)
    (hrr : args.return_result = false) :
    ∀ (es : List Event) (st st' : TraceState),
      applyEvents args child es st = .ok st' → st'.exitCode = st.exitCode := by
  intro es
  induction es with
  | nil =>
    intro st st' h
    simp only [applyEvents] at h
    cases h
    rfl
  | cons e tl ih =>
    intro st st' h
    simp only [applyEvents] at h
    cases hstep : handleStatus args child st e with
    | error err => rw [hstep] at h; cases h
    | ok st₁ =>
      rw [hstep] at h
      rcases handleStatus_exitCode_cases args child st st₁ e hstep with
        hsame | ⟨code, _, htrue, _⟩ | ⟨sig, _, htrue, _⟩
      · rw [ih st₁ st' h, hsame]
      · rw [hrr] at htrue; cases htrue
      · rw [hrr] at htrue; cases htrue

/-- Once the root is exited, subsequent valid events neither revive it nor
change `exit_code`. -/
theorem applyEvents_exitCode_frozen (args : Args) (child : Pid) :
    ∀ (es : List Event) (st st' : TraceState),
      pidExited st.procs child = true →
      eventsOk args child st es = true →
      applyEvents args child es st = .ok st' →
      st'.exitCode = st.exitCode ∧ pidExited st'.procs child = true := by
  intro es
  induction es with
  | nil =>
    intro st st' hex _ h
    simp only [applyEvents] at h
    cases h
    exact ⟨rfl, hex⟩
  | cons e tl ih =>
    intro st st' hex hval h
    simp only [eventsOk, Bool.and_eq_true] at hval
    obtain ⟨hev, hval'⟩ := hval
    simp only [applyEvents] at h
    cases hstep : handleStatus args child st e with
    | error err => rw [hstep] at h; cases h
    | ok st₁ =>
      rw [hstep] at h
      rw [hstep] at hval'
      have hex₁ : pidExited st₁.procs child = true :=
        pidExited_mono args child st st₁ e hstep hev hex
      have hcode : st₁.exitCode = st.exitCode := by
        rcases handleStatus_exitCode_cases args child st st₁ e hstep with
          hsame | ⟨code, heq, _, _⟩ | ⟨sig, heq, _, _⟩
        · exact hsame
        · subst heq
          exact absurd hex (by
            intro hex'
            exact alive_not_exited st.procs child hev hex')
        · subst heq
          exact absurd hex (by
            intro hex'
            exact alive_not_exited st.procs child hev hex')
      obtain ⟨h1, h2⟩ := ih st₁ st' hex₁ hval' h
      exact ⟨by rw [h1, hcode], h2⟩

theorem alivePid_lookup (t : ProcTable) (c : Pid) (h : alivePid t c = true) :
    ∃ i, lookupProc t c = some i ∧ i.exited = false := by
  unfold alivePid at h
  cases hl : lookupProc t c with
  | none => rw [hl] at h; cases h
  | some i =>
    rw [hl] at h
    simp only [Bool.not_eq_true'] at h
    exact ⟨i, rfl, h⟩

/-- Under `--return-result`, an observed clean exit of the root fixes
`exit_code` to the reported code for the rest of the run. -/
theorem applyEvents_exited_mem (args : Args) (child : Pid)
    (hrr : args.return_result = true) :
    ∀ (es : List Event) (st st' : TraceState) (code : Int),
      eventsOk args child st es = true →
      applyEvents args child es st = .ok st' →
      (Event.exited child code) ∈ es →
      st'.exitCode = code := by
  intro es
  induction es with
  | nil =>
    intro st st' code _ _ hm
    cases hm
  | cons e tl ih =>
    intro st st' code hval h hm
    simp only [eventsOk, Bool.and_eq_true] at hval
    obtain ⟨hev, hval'⟩ := hval
    simp only [applyEvents] at h
    cases hstep : handleStatus args child st e with
    | error err => rw [hstep] at h; cases h
    | ok st₁ =>
      rw [hstep] at h
      rw [hstep] at hval'
      cases hm with
      | head =>
        have hstep' := hstep
        simp only [handleStatus, hrr, Bool.true_and, beq_self_eq_true, if_pos] at hstep'
        obtain ⟨i, hlook, _⟩ := alivePid_lookup st.procs child hev
        cases hstep'
        have hex₁ : pidExited (markExited st.procs child) child = true :=
          pidExited_markExited_self st.procs child i hlook
        have := applyEvents_exitCode_frozen args child tl
          ⟨markExited st.procs child, code⟩ st' hex₁ hval' h
        exact this.1
      | tail _ hm' =>
        exact ih st₁ st' code hval' h hm'

/-- Under `--return-result`, an observed signal-kill of the root fixes
`exit_code` to `128 + signal` for the rest of the run. -/
theorem applyEvents_signaled_mem (args : Args) (child : Pid)
    (hrr : args.return_result = true) :
    ∀ (es : List Event) (st st' : TraceState) (sig : Nat),
      eventsOk args child st es = true →
      applyEvents args child es st = .ok st' →
      (Event.signaled child sig) ∈ es →
      st'.exitCode = 128 + (sig : Int) := by
  intro es
  induction es with
  | nil =>
    intro st st' sig _ _ hm
    cases hm
  | cons e tl ih =>
    intro st st' sig hval h hm
    simp only [eventsOk, Bool.and_eq_true] at hval
    obtain ⟨hev, hval'⟩ := hval
    simp only [applyEvents] at h
    cases hstep : handleStatus args child st e with
    | error err => rw [hstep] at h; cases h
    | ok st₁ =>
      rw [hstep] at h
      rw [hstep] at hval'
      cases hm with
      | head =>
        have hstep' := hstep
        simp only [handleStatus, hrr, Bool.true_and, beq_self_eq_true, if_pos] at hstep'
        obtain ⟨i, hlook, _⟩ := alivePid_lookup st.procs child hev
        cases hstep'
        have hex₁ : pidExited (markExited st.procs child) child = true :=
          pidExited_markExited_self st.procs child i hlook
        have := applyEvents_exitCode_frozen args child tl
          ⟨markExited st.procs child, 128 + (sig : Int)⟩ st' hex₁ hval' h
        exact this.1
      | tail _ hm' =>
        exact ih st₁ st' sig hval' h hm'

/-! ## C5 -/

/-- C5: the supervisor's exit code (`process::exit(exit_code)`,
main.rs line 285). With propagation off it is the initial 0 whatever the run
observed. With `--return-result`, a run whose valid event sequence contains
the root's clean exit with `code` ends with `exit_code = code` (0 when the
tracee exited 0), and one that contains the root's death by signal `sig`
ends with `exit_code = 128 + sig`. -/
theorem c5_exit_code_propagation (args : Args) (child : Pid) :
    (args.return_result = false →
      ∀ (es : List Event) (st' : TraceState),
        applyEvents args child es (initState child) = .ok st' →
        st'.exitCode = 0) ∧
    (args.return_result = true →
      ∀ (es : List Event) (st' : TraceState) (code : Int),
        eventsOk args child (initState child) es = true →
        applyEvents args child es (initState child) = .ok st' →
        (Event.exited child code) ∈ es →
        st'.exitCode = code) ∧
    (args.return_result = true →
      ∀ (es : List Event) (st' : TraceState) (sig : Nat),
        eventsOk args child (initState child) es = true →
        applyEvents args child es (initState child) = .ok st' →
        (Event.signaled child sig) ∈ es →
        st'.exitCode = 128 + (sig : Int)) := by
  refine ⟨?_, ?_, ?_⟩
  · intro hrr es st' h
    exact applyEvents_exitCode_rr_false args child hrr es (initState child) st' h
  · intro hrr es st' code hval h hm
    exact applyEvents_exited_mem args child hrr es (initState child) st' code hval h hm
  · intro hrr es st' sig hval h hm
    exact applyEvents_signaled_mem args child hrr es (initState child) st' sig hval h hm

/-- Witness for C5: one-event runs for each of the three cases. -/
theorem c5_exit_code_propagation_witness :
    (applyEvents ⟨false⟩ 7 [.exited 7 5] (initState 7)
        = .ok ⟨[(7, ⟨true, [], 0⟩)], 0⟩ ∧
      (⟨[(7, ⟨true, [], 0⟩)], 0⟩ : TraceState).exitCode = 0) ∧
    (eventsOk ⟨true⟩ 7 (initState 7) [.exited 7 5] = true ∧
      applyEvents ⟨true⟩ 7 [.exited 7 5] (initState 7)
        = .ok ⟨[(7, ⟨true, [], 0⟩)], 5⟩ ∧
      (⟨[(7, ⟨true, [], 0⟩)], 5⟩ : TraceState).exitCode = 5) ∧
    (eventsOk ⟨true⟩ 7 (initState 7) [.signaled 7 9] = true ∧
      applyEvents ⟨true⟩ 7 [.signaled 7 9] (initState 7)
        = .ok ⟨[(7, ⟨true, [], 0⟩)], 137⟩ ∧
      (⟨[(7, ⟨true, [], 0⟩)], 137⟩ : TraceState).exitCode = 128 + (9 : Int)) :=
  ⟨⟨by decide,
    (c5_exit_code_propagation ⟨false⟩ 7).1 rfl [.exited 7 5]
      ⟨[(7, ⟨true, [], 0⟩)], 0⟩ (by decide)⟩,
   ⟨by decide, by decide,
    (c5_exit_code_propagation ⟨true⟩ 7).2.1 rfl [.exited 7 5]
      ⟨[(7, ⟨true, [], 0⟩)], 5⟩ 5 (by decide) (by decide) (List.mem_singleton.mpr rfl)⟩,
   ⟨by decide, by decide,
    (c5_exit_code_propagation ⟨true⟩ 7).2.2 rfl [.signaled 7 9]
      ⟨[(7, ⟨true, [], 0⟩)], 137⟩ 9 (by decide) (by decide) (List.mem_singleton.mpr rfl)⟩⟩

/-! ## C8: the child graph invariant

Only the keys and `children` lists matter for the tree shape, so the
invariant lives on the table's skeleton: the association list of
`(pid, children)` pairs, which `markExited` / `recordRss` leave untouched. -/

abbrev Skel := List (Pid × List Pid)

def skel (t : ProcTable) : Skel := t.map (fun pr => (pr.1, pr.2.children))

def skeys (s : Skel) : List Pid := s.map Prod.fst

def schildren (s : Skel) : List Pid := (s.map Prod.snd).flatten

def slookup : Skel → Pid → Option (List Pid)
  | [], _ => none
  | (q, cs) :: t, p => if q = p then some cs else slookup t p

/-- `insertProc _ p {}` on the skeleton. -/
def sinsert : Skel → Pid → Skel
  | [], p => [(p, [])]
  | (q, cs) :: t, p => if q = p then (p, []) :: t else (q, cs) :: sinsert t p

/-- `appendChild` on the skeleton. -/
def sappend : Skel → Pid → Pid → Skel
  | [], _, _ => []
  | (q, cs) :: t, p, c =>
      if q = p then (q, cs ++ [c]) :: t else (q, cs) :: sappend t p c

theorem skel_markExited (t : ProcTable) (p : Pid) :
    skel (markExited t p) = skel t := by
  induction t with
  | nil => rfl
  | cons pr rest ih =>
    obtain ⟨q, i⟩ := pr
    by_cases h : q = p <;> simp [markExited, skel, h] <;> simpa [skel] using ih

theorem skel_recordRss (t : ProcTable) (p : Pid) (v : Nat) :
    skel (recordRss t p v) = skel t := by
  induction t with
  | nil => rfl
  | cons pr rest ih =>
    obtain ⟨q, i⟩ := pr
    by_cases h : q = p <;> simp [recordRss, skel, h] <;> simpa [skel] using ih

theorem skel_insertProc (t : ProcTable) (p : Pid) :
    skel (insertProc t p {}) = sinsert (skel t) p := by
  induction t with
  | nil => rfl
  | cons pr rest ih =>
    obtain ⟨q, i⟩ := pr
    by_cases h : q = p <;> simp [insertProc, sinsert, skel, h] <;>
      simpa [skel] using ih

theorem skel_appendChild (t : ProcTable) (p c : Pid) :
    skel (appendChild t p c) = sappend (skel t) p c := by
  induction t with
  | nil => rfl
  | cons pr rest ih =>
    obtain ⟨q, i⟩ := pr
    by_cases h : q = p <;> simp [appendChild, sappend, skel, h] <;>
      simpa [skel] using ih

theorem slookup_skel (t : ProcTable) (p : Pid) :
    slookup (skel t) p = (lookupProc t p).map (fun i => i.children) := by
  induction t with
  | nil => rfl
  | cons pr rest ih =>
    obtain ⟨q, i⟩ := pr
    by_cases h : q = p <;> simp [lookupProc, slookup, skel, h] <;>
      simpa [skel] using ih

theorem keysOf_skel (t : ProcTable) : skeys (skel t) = keysOf t := by
  simp [skeys, skel, keysOf, List.map_map]

theorem childIds_skel (t : ProcTable) : schildren (skel t) = childIds t := by
  simp only [schildren, skel, childIds, List.map_map]
  rfl

theorem slookup_mem (s : Skel) (p : Pid) (cs : List Pid)
    (h : slookup s p = some cs) : (p, cs) ∈ s := by
  induction s with
  | nil => cases h
  | cons pr rest ih =>
    obtain ⟨q, ds⟩ := pr
    by_cases hq : q = p
    · subst hq
      rw [slookup, if_pos rfl] at h
      cases h
      exact List.mem_cons_self _ _
    · rw [slookup, if_neg hq] at h
      exact List.mem_cons_of_mem _ (ih h)

theorem mem_schildren_of (s : Skel) (p c : Pid) (cs : List Pid)
    (hmem : (p, cs) ∈ s) (hc : c ∈ cs) : c ∈ schildren s := by
  unfold schildren
  rw [List.mem_flatten]
  exact ⟨cs, List.mem_map.mpr ⟨(p, cs), hmem, rfl⟩, hc⟩

theorem slookup_none_iff (s : Skel) (p : Pid) :
    slookup s p = none ↔ p ∉ skeys s := by
  induction s with
  | nil => simp [slookup, skeys]
  | cons pr rest ih =>
    obtain ⟨q, ds⟩ := pr
    by_cases hq : q = p
    · subst hq
      simp [slookup, skeys]
    · simp [slookup, skeys, hq, ih, Ne.symm hq]

theorem slookup_isSome_of_mem (s : Skel) (p : Pid) (h : p ∈ skeys s) :
    ∃ cs, slookup s p = some cs := by
  cases hl : slookup s p with
  | none => exact absurd h ((slookup_none_iff s p).mp hl)
  | some cs => exact ⟨cs, rfl⟩

theorem sinsert_fresh (s : Skel) (p : Pid) (h : p ∉ skeys s) :
    sinsert s p = s ++ [(p, [])] := by
  induction s with
  | nil => rfl
  | cons pr rest ih =>
    obtain ⟨q, ds⟩ := pr
    have hq : q ≠ p := by
      intro hqp
      exact h (by simp [skeys, hqp])
    have hrest : p ∉ skeys rest := by
      intro hp
      exact h (by simp [skeys]; right; simpa [skeys] using hp)
    rw [sinsert, if_neg hq, ih hrest]
    rfl

theorem skeys_cons (pr : Pid × List Pid) (s : Skel) :
    skeys (pr :: s) = pr.1 :: skeys s := rfl

theorem sappend_append_left (s r : Skel) (p c : Pid) (h : p ∈ skeys s) :
    sappend (s ++ r) p c = sappend s p c ++ r := by
  induction s with
  | nil => simp [skeys] at h
  | cons pr rest ih =>
    obtain ⟨q, ds⟩ := pr
    by_cases hq : q = p
    · subst hq
      simp [sappend]
    · rw [List.cons_append, sappend, if_neg hq, sappend, if_neg hq]
      have hrest : p ∈ skeys rest := by
        rw [skeys_cons] at h
        rcases List.mem_cons.mp h with h1 | h2
        · exact absurd h1.symm hq
        · exact h2
      rw [ih hrest]
      rfl

theorem slookup_sappend (s : Skel) (p q c : Pid) :
    slookup (sappend s p c) q
      = if q = p then (slookup s p).map (fun cs => cs ++ [c])
        else slookup s q := by
  induction s with
  | nil => simp [sappend, slookup]
  | cons pr rest ih =>
    obtain ⟨r, ds⟩ := pr
    by_cases hr : r = p
    · subst hr
      by_cases hq : r = q
      · subst hq; simp [sappend, slookup]
      · have hqr : ¬q = r := fun h => hq h.symm
        simp [sappend, slookup, hq, hqr]
    · by_cases hq : r = q
      · subst hq
        have hrp : ¬r = p := hr
        simp [sappend, slookup, hrp]
      · simp [sappend, slookup, hr, hq, ih]

theorem schildren_cons (pr : Pid × List Pid) (s : Skel) :
    schildren (pr :: s) = pr.2 ++ schildren s := by
  simp [schildren]

theorem schildren_sappend_perm (s : Skel) (p c : Pid) (h : p ∈ skeys s) :
    (schildren (sappend s p c)).Perm (c :: schildren s) := by
  induction s with
  | nil => simp [skeys] at h
  | cons pr rest ih =>
    obtain ⟨q, ds⟩ := pr
    by_cases hq : q = p
    · subst hq
      rw [sappend, if_pos rfl, schildren_cons, schildren_cons]
      dsimp only
      rw [List.append_assoc]
      exact List.perm_middle
    · rw [sappend, if_neg hq, schildren_cons, schildren_cons]
      dsimp only
      have hrest : p ∈ skeys rest := by
        rw [skeys_cons] at h
        rcases List.mem_cons.mp h with h1 | h2
        · exact absurd h1.symm hq
        · exact h2
      exact (List.Perm.append_left ds (ih hrest)).trans List.perm_middle

theorem slookup_append_single (s : Skel) (a q : Pid) (cs : List Pid) :
    slookup (s ++ [(a, cs)]) q
      = match slookup s q with
        | some x => some x
        | none => if a = q then some cs else none := by
  induction s with
  | nil => simp [slookup]
  | cons pr rest ih =>
    obtain ⟨r, ds⟩ := pr
    by_cases hr : r = q
    · simp [slookup, hr]
    · simp [slookup, hr, ih]

theorem indexOf_append_singleton_self (l : List Pid) (b : Pid) (h : b ∉ l) :
    (l ++ [b]).indexOf b = l.length := by
  induction l with
  | nil => simp
  | cons a t ih =>
    have hab : a ≠ b := by
      intro hab
      exact h (by rw [hab]; exact List.mem_cons_self _ _)
    have hbt : b ∉ t := fun hm => h (List.mem_cons_of_mem _ hm)
    rw [List.cons_append, List.indexOf_cons_ne _ (by exact hab), ih hbt]
    simp

/-- The invariant maintained on the skeleton of the process table: unique
keys, the root present, every child id a key, no id a child twice, the root
never a child, every non-root key a child, and each parent strictly earlier
in insertion order than each of its children. -/
structure SkelInv (root : Pid) (s : Skel) : Prop where
  keysNodup : (skeys s).Nodup
  rootMem : root ∈ skeys s
  childNodup : (schildren s).Nodup
  rootNotChild : root ∉ schildren s
  childSub : ∀ c ∈ schildren s, c ∈ skeys s
  coverage : ∀ k ∈ skeys s, k ≠ root → k ∈ schildren s
  ordered : ∀ p cs c, slookup s p = some cs → c ∈ cs →
    (skeys s).indexOf p < (skeys s).indexOf c

theorem skelInv_init (root : Pid) : SkelInv root [(root, [])] := by
  refine ⟨?_, ?_, ?_, ?_, ?_, ?_, ?_⟩
  · simp [skeys]
  · simp [skeys]
  · simp [schildren]
  · simp [schildren]
  · simp [schildren]
  · intro k hk hne
    simp [skeys] at hk
    exact absurd hk hne
  · intro p cs c hl hc
    rw [slookup] at hl
    by_cases hp : root = p
    · rw [if_pos hp] at hl
      cases hl
      cases hc
    · rw [if_neg hp] at hl
      cases hl

theorem skeys_sappend (s : Skel) (p c : Pid) :
    skeys (sappend s p c) = skeys s := by
  induction s with
  | nil => rfl
  | cons pr rest ih =>
    obtain ⟨q, ds⟩ := pr
    by_cases hq : q = p <;> simp [sappend, skeys, hq] <;> simpa [skeys] using ih

theorem skeys_append (a b : Skel) : skeys (a ++ b) = skeys a ++ skeys b := by
  simp [skeys]

theorem schildren_append (a b : Skel) :
    schildren (a ++ b) = schildren a ++ schildren b := by
  simp [schildren]

/-- Preservation of the skeleton invariant by a fork-class event: insert the
fresh pid with no children, then append it to the tracked parent's list. -/
theorem skelInv_newChild (root p newP : Pid) (s : Skel)
    (inv : SkelInv root s) (hp : p ∈ skeys s) (hfresh : newP ∉ skeys s) :
    SkelInv root (sappend (sinsert s newP) p newP) := by
  rw [sinsert_fresh s newP hfresh, sappend_append_left s [(newP, [])] p newP hp]
  have hkeys₁ : skeys (sappend s p newP) = skeys s := skeys_sappend s p newP
  have hkeys₂ : skeys (sappend s p newP ++ [(newP, [])]) = skeys s ++ [newP] := by
    rw [skeys_append, hkeys₁]
    rfl
  have hch₂ : schildren (sappend s p newP ++ [(newP, [])])
      = schildren (sappend s p newP) := by
    rw [schildren_append]
    simp [schildren]
  have hperm : (schildren (sappend s p newP)).Perm (newP :: schildren s) :=
    schildren_sappend_perm s p newP hp
  have hnewPnotCh : newP ∉ schildren s := fun hm => hfresh (inv.childSub newP hm)
  have hrootneq : root ≠ newP := fun h => hfresh (h ▸ inv.rootMem)
  refine ⟨?_, ?_, ?_, ?_, ?_, ?_, ?_⟩
  · rw [hkeys₂, List.nodup_append]
    refine ⟨inv.keysNodup, by simp, ?_⟩
    intro a ha hb
    simp at hb
    subst hb
    exact hfresh ha
  · rw [hkeys₂]
    exact List.mem_append_left _ inv.rootMem
  · rw [hch₂]
    exact hperm.nodup_iff.mpr (List.nodup_cons.mpr ⟨hnewPnotCh, inv.childNodup⟩)
  · rw [hch₂]
    intro hm
    rcases List.mem_cons.mp (hperm.mem_iff.mp hm) with h1 | h2
    · exact hrootneq h1
    · exact inv.rootNotChild h2
  · rw [hch₂, hkeys₂]
    intro c hm
    rcases List.mem_cons.mp (hperm.mem_iff.mp hm) with h1 | h2
    · subst h1
      exact List.mem_append_right _ (by simp)
    · exact List.mem_append_left _ (inv.childSub c h2)
  · rw [hch₂, hkeys₂]
    intro k hk hkr
    rcases List.mem_append.mp hk with h1 | h2
    · exact hperm.mem_iff.mpr (List.mem_cons_of_mem _ (inv.coverage k h1 hkr))
    · simp at h2
      subst h2
      exact hperm.mem_iff.mpr (List.mem_cons_self _ _)
  · rw [hkeys₂]
    intro p' cs' c' hl hc
    rw [slookup_append_single] at hl
    cases hl₁ : slookup (sappend s p newP) p' with
    | none =>
      rw [hl₁] at hl
      dsimp only at hl
      by_cases hnp : newP = p'
      · rw [if_pos hnp] at hl
        injection hl with hx
        subst hx
        cases hc
      · rw [if_neg hnp] at hl
        cases hl
    | some x =>
      rw [hl₁] at hl
      dsimp only at hl
      injection hl with hx
      subst hx
      rw [slookup_sappend] at hl₁
      by_cases hpp : p' = p
      · subst hpp
        rw [if_pos rfl] at hl₁
        obtain ⟨ps₀, hps₀⟩ := slookup_isSome_of_mem s p' hp
        rw [hps₀] at hl₁
        dsimp only [Option.map] at hl₁
        injection hl₁ with hx₁
        rw [← hx₁] at hc
        rcases List.mem_append.mp hc with hc1 | hc2
        · have hlt := inv.ordered p' ps₀ c' hps₀ hc1
          have hc'keys : c' ∈ skeys s :=
            inv.childSub c'
              (mem_schildren_of s p' c' ps₀ (slookup_mem s p' ps₀ hps₀) hc1)
          rw [List.indexOf_append_of_mem hp, List.indexOf_append_of_mem hc'keys]
          exact hlt
        · simp at hc2
          subst hc2
          rw [List.indexOf_append_of_mem hp,
            indexOf_append_singleton_self _ _ hfresh]
          exact List.indexOf_lt_length.mpr hp
      · rw [if_neg hpp] at hl₁
        have hp'keys : p' ∈ skeys s := by
          by_contra hnp'
          rw [(slookup_none_iff s p').mpr hnp'] at hl₁
          cases hl₁
        have hc'keys : c' ∈ skeys s :=
          inv.childSub c'
            (mem_schildren_of s p' c' x (slookup_mem s p' x hl₁) hc)
        rw [List.indexOf_append_of_mem hp'keys,
          List.indexOf_append_of_mem hc'keys]
        exact inv.ordered p' x c' hl₁ hc

theorem mem_skeys_of_lookup (t : ProcTable) (p : Pid) (i : ProcInfo)
    (h : lookupProc t p = some i) : p ∈ skeys (skel t) := by
  by_contra hn
  have hnone := (slookup_none_iff (skel t) p).mpr hn
  rw [slookup_skel, h] at hnone
  cases hnone

theorem not_mem_skeys_of_lookup_none (t : ProcTable) (p : Pid)
    (h : lookupProc t p = none) : p ∉ skeys (skel t) := by
  intro hm
  obtain ⟨cs, hcs⟩ := slookup_isSome_of_mem (skel t) p hm
  rw [slookup_skel, h] at hcs
  cases hcs

/-- Every handled status preserves the skeleton invariant. -/
theorem skelInv_step (args : Args) (root : Pid) (st st' : TraceState)
    (e : Event) (inv : SkelInv root (skel st.procs))
    (hev : eventOk st e = true)
    (hok : handleStatus args root st e = .ok st') :
    SkelInv root (skel st'.procs) := by
  cases e with
  | exited pid code =>
    simp only [handleStatus] at hok
    cases hok
    show SkelInv root (skel (markExited st.procs pid))
    rw [skel_markExited]
    exact inv
  | signaled pid sig =>
    simp only [handleStatus] at hok
    cases hok
    show SkelInv root (skel (markExited st.procs pid))
    rw [skel_markExited]
    exact inv
  | ptraceExit pid smaps contRes =>
    simp only [handleStatus] at hok
    cases hl : lookupProc st.procs pid with
    | none => rw [hl] at hok; cases hok
    | some i =>
      rw [hl] at hok
      cases hrss : get_rss smaps with
      | error er => rw [hrss] at hok; cases hok
      | ok rss =>
        rw [hrss] at hok
        have hbranch : ∀ b : Bool,
            skel (if b = true then recordRss st.procs pid rss
              else markExited (recordRss st.procs pid rss) pid)
              = skel st.procs := by
          intro b
          cases b with
          | true => rw [if_pos rfl, skel_recordRss]
          | false =>
            simp only [Bool.false_eq_true, if_false]
            rw [skel_markExited, skel_recordRss]
        cases contRes with
        | none =>
          cases hok
          show SkelInv root (skel _)
          rw [hbranch]
          exact inv
        | some er =>
          cases er with
          | ESRCH =>
            cases hok
            show SkelInv root (skel (markExited _ pid))
            rw [skel_markExited, hbranch]
            exact inv
          | ENOENT => cases hok
          | other n => cases hok
  | newChild pid newP contRes =>
    simp only [eventOk, Bool.and_eq_true, Option.isNone_iff_eq_none] at hev
    obtain ⟨halive, hfresh⟩ := hev
    obtain ⟨i, hlook, _⟩ := alivePid_lookup st.procs pid halive
    cases contRes with
    | none =>
      simp only [handleStatus] at hok
      cases hok
      show SkelInv root (skel (appendChild (insertProc st.procs newP {}) pid newP))
      rw [skel_appendChild, skel_insertProc]
      exact skelInv_newChild root pid newP (skel st.procs) inv
        (mem_skeys_of_lookup st.procs pid i hlook)
        (not_mem_skeys_of_lookup_none st.procs newP hfresh)
    | some er => simp only [handleStatus] at hok; cases hok
  | stopped pid sig contRes =>
    simp only [handleStatus] at hok
    cases contRes with
    | none => cases hok; exact inv
    | some er => cases hok
  | stillAlive =>
    simp only [handleStatus] at hok
    cases hok
    exact inv
  | other pid contRes =>
    simp only [handleStatus] at hok
    cases contRes with
    | none => cases hok; exact inv
    | some er => cases hok

/-- The skeleton invariant holds after any valid observed run. -/
theorem skelInv_applyEvents (args : Args) (root : Pid) :
    ∀ (es : List Event) (st st' : TraceState),
      SkelInv root (skel st.procs) →
      eventsOk args root st es = true →
      applyEvents args root es st = .ok st' →
      SkelInv root (skel st'.procs) := by
  intro es
  induction es with
  | nil =>
    intro st st' inv _ h
    simp only [applyEvents] at h
    cases h
    exact inv
  | cons e tl ih =>
    intro st st' inv hval h
    simp only [eventsOk, Bool.and_eq_true] at hval
    obtain ⟨hev, hval'⟩ := hval
    simp only [applyEvents] at h
    cases hstep : handleStatus args root st e with
    | error err => rw [hstep] at h; cases h
    | ok st₁ =>
      rw [hstep] at h
      rw [hstep] at hval'
      exact ih st₁ st' (skelInv_step args root st st₁ e inv hev hstep) hval' h

/-- The child relation induced by the table: `c` is listed among the
children of `p`. -/
def childRelation (t : ProcTable) (p c : Pid) : Prop :=
  ∃ i, lookupProc t p = some i ∧ c ∈ i.children

theorem childRelation_indexOf (root : Pid) (t : ProcTable)
    (inv : SkelInv root (skel t)) (p c : Pid) (h : childRelation t p c) :
    (skeys (skel t)).indexOf p < (skeys (skel t)).indexOf c := by
  obtain ⟨i, hl, hc⟩ := h
  refine inv.ordered p i.children c ?_ hc
  rw [slookup_skel, hl]
  rfl

theorem transGen_childRelation_indexOf (root : Pid) (t : ProcTable)
    (inv : SkelInv root (skel t)) (p c : Pid)
    (h : Relation.TransGen (childRelation t) p c) :
    (skeys (skel t)).indexOf p < (skeys (skel t)).indexOf c := by
  induction h with
  | single h1 => exact childRelation_indexOf root t inv _ _ h1
  | tail h1 h2 ih =>
    exact lt_trans ih (childRelation_indexOf root t inv _ _ h2)

/-- C8: after any valid observed run from the initial table, the `children`
lists are closed over the table keys and form a tree rooted at the initial
tracee: the root is nobody's child, every non-root key is listed as a child
of exactly one parent (it occurs exactly once among all children lists), and
the child relation has no cycles. Validity of the run means `waitpid`
statuses only arrive for live tracked pids and fork events carry pids new to
the supervisor — which models the kernel's side of the protocol. -/
theorem c8_children_form_tree (args : Args) (child : Pid) (es : List Event)
    (st' : TraceState)
    (hval : eventsOk args child (initState child) es = true)
    (hrun : applyEvents args child es (initState child) = .ok st') :
    (∀ pr ∈ st'.procs, ∀ c ∈ pr.2.children, c ∈ keysOf st'.procs) ∧
    List.count child (childIds st'.procs) = 0 ∧
    (∀ k ∈ keysOf st'.procs, k ≠ child → List.count k (childIds st'.procs) = 1) ∧
    (∀ p, ¬ Relation.TransGen (childRelation st'.procs) p p) := by
  have inv : SkelInv child (skel st'.procs) :=
    skelInv_applyEvents args child es (initState child) st'
      (skelInv_init child) hval hrun
  refine ⟨?_, ?_, ?_, ?_⟩
  · intro pr hpr c hc
    have hmem : (pr.1, pr.2.children) ∈ skel st'.procs :=
      List.mem_map.mpr ⟨pr, hpr, rfl⟩
    have := inv.childSub c (mem_schildren_of _ pr.1 c pr.2.children hmem hc)
    rw [keysOf_skel] at this
    exact this
  · rw [← childIds_skel]
    exact List.count_eq_zero.mpr inv.rootNotChild
  · intro k hk hkr
    rw [← childIds_skel]
    refine List.count_eq_one_of_mem inv.childNodup ?_
    refine inv.coverage k ?_ hkr
    rw [keysOf_skel]
    exact hk
  · intro p hT
    exact absurd (transGen_childRelation_indexOf child st'.procs inv p p hT)
      (lt_irrefl _)

/-- Witness for C8: the run that forks 7 → 9 and then 9 → 11. -/
theorem c8_children_form_tree_witness :
    eventsOk ⟨true⟩ 7 (initState 7)
      [.newChild 7 9 none, .newChild 9 11 none] = true ∧
    applyEvents ⟨true⟩ 7 [.newChild 7 9 none, .newChild 9 11 none] (initState 7)
      = .ok ⟨[(7, ⟨false, [9], 0⟩), (9, ⟨false, [11], 0⟩), (11, ⟨false, [], 0⟩)], 0⟩ ∧
    ((∀ pr ∈ (⟨[(7, ⟨false, [9], 0⟩), (9, ⟨false, [11], 0⟩),
          (11, ⟨false, [], 0⟩)], 0⟩ : TraceState).procs,
        ∀ c ∈ pr.2.children,
          c ∈ keysOf (⟨[(7, ⟨false, [9], 0⟩), (9, ⟨false, [11], 0⟩),
            (11, ⟨false, [], 0⟩)], 0⟩ : TraceState).procs) ∧
      List.count 7 (childIds (⟨[(7, ⟨false, [9], 0⟩), (9, ⟨false, [11], 0⟩),
        (11, ⟨false, [], 0⟩)], 0⟩ : TraceState).procs) = 0 ∧
      (∀ k ∈ keysOf (⟨[(7, ⟨false, [9], 0⟩), (9, ⟨false, [11], 0⟩),
          (11, ⟨false, [], 0⟩)], 0⟩ : TraceState).procs, k ≠ 7 →
        List.count k (childIds (⟨[(7, ⟨false, [9], 0⟩), (9, ⟨false, [11], 0⟩),
          (11, ⟨false, [], 0⟩)], 0⟩ : TraceState).procs) = 1) ∧
      (∀ p, ¬ Relation.TransGen
        (childRelation (⟨[(7, ⟨false, [9], 0⟩), (9, ⟨false, [11], 0⟩),
          (11, ⟨false, [], 0⟩)], 0⟩ : TraceState).procs) p p)) :=
  ⟨by decide, by decide,
   c8_children_form_tree ⟨true⟩ 7 [.newChild 7 9 none, .newChild 9 11 none]
     ⟨[(7, ⟨false, [9], 0⟩), (9, ⟨false, [11], 0⟩), (11, ⟨false, [], 0⟩)], 0⟩
     (by decide) (by decide)⟩
